import Mathlib

/-!
Shallow embedding of the spectacle webhook service (the current iteration of
`main.go`: HTTP hook handler, build-job queue, single worker goroutine).

Strings and byte slices are modelled as `List Char`; machine bytes as `Nat`.
External libraries are modelled as parameters or faithful translations:
`encoding/json.Unmarshal` as a `parse` parameter, HMAC-SHA1 as a `mac`
parameter, `encoding/hex.Decode` translated instruction-for-instruction
(including its ignored error return and its out-of-range panic).
-/

/-- Unpack a string literal into the character list used throughout. -/
def s2l (s : String) : List Char := s.data

/-- A configured repository: `Repo` from the source, loaded from spectacle.ini. -/
structure Repo where
  name : List Char
  secret : List Char
  branch : List Char
  deriving DecidableEq

/-- The fields of `GithubPayload` that the handler reads. -/
structure GithubPayload where
  ref : List Char
  repoName : List Char
  repoFullName : List Char
  deriving DecidableEq

/-- `BuildJob` from the source: {Name, Url, Branch}. -/
structure BuildJob where
  name : List Char
  url : List Char
  branch : List Char
  deriving DecidableEq

/-- The parts of an inbound HTTP request that `ServeHTTP` inspects. -/
structure HttpRequest where
  path : List Char
  method : List Char
  contentType : List Char
  hubSignature : List Char
  githubEvent : List Char
  body : List Char
  deriving DecidableEq

/-- Go `strings.HasSuffix(s, suf)`. -/
def hasSuffix (s suf : List Char) : Bool :=
  decide (suf.length ≤ s.length) && s.drop (s.length - suf.length) == suf

/-- Go `strings.Replace(name, "/", "-", -1)`: every slash becomes a dash. -/
def sanitizeName (name : List Char) : List Char :=
  name.map (fun c => if c == '/' then '-' else c)

/-- `encoding/hex.fromHexChar`. -/
def fromHexChar (c : Char) : Option Nat :=
  if '0' ≤ c ∧ c ≤ '9' then some (c.toNat - '0'.toNat)
  else if 'a' ≤ c ∧ c ≤ 'f' then some (c.toNat - 'a'.toNat + 10)
  else if 'A' ≤ c ∧ c ≤ 'F' then some (c.toNat - 'A'.toNat + 10)
  else none

/-- The write loop of `encoding/hex.Decode` into a destination buffer with
`slots` free cells.  `none` models the index-out-of-range panic that Go
raises when a further valid pair arrives with the buffer already full; on an
invalid character the loop stops and returns the bytes written so far (Go
also returns an error there, which the caller in `ServeHTTP` discards). -/
def decodeInto (slots : Nat) : List Char → Option (List Nat)
  | p :: q :: rest =>
    match fromHexChar p with
    | none => some []
    | some a =>
      match fromHexChar q with
      | none => some []
      | some b =>
        match slots with
        | 0 => none
        | s + 1 => (decodeInto s rest).map (fun l => (16 * a + b) :: l)
  | _ => some []

/-- The 20-byte buffer `actual` after the `hex.Decode(actual, ...)` call in
`ServeHTTP`: allocated zero-filled, partially overwritten by the decoder,
decode errors discarded. -/
def hexBuffer20 (src : List Char) : Option (List Nat) :=
  (decodeInto 20 src).map (fun l => l ++ List.replicate (20 - l.length) 0)

/-- `crypto/hmac.Equal` (constant-time comparison of byte slices; false on
length mismatch). -/
def hmacEqual (a b : List Nat) : Bool := a == b

/-- The signature-check fragment of `ServeHTTP`: decode the header digest
after its 5-character prefix into the zeroed 20-byte buffer and compare with
the computed MAC.  `none` means the hex decoder paniced. -/
def sigCheck (sum : List Nat) (sigTail : List Char) : Option Bool :=
  (hexBuffer20 sigTail).map (fun actual => hmacEqual sum actual)

/-- The repository-lookup closure in `ServeHTTP`: first config entry whose
name equals the payload's full name. -/
def lookupRepo : List Repo → List Char → Option Repo
  | [], _ => none
  | r :: rs, n => if r.name = n then some r else lookupRepo rs n

/-- What the handler does to a request: either it panics (propagated from
`hex.Decode`) or it writes a status code, having enqueued at most one job. -/
inductive ServeResult where
  | panicked
  | response (status : Nat) (job : Option BuildJob)
  deriving DecidableEq

/-- The job enqueued by a handler run, if any. -/
def jobOf : ServeResult → Option BuildJob
  | .panicked => none
  | .response _ j => j

/-- `HookHandler.ServeHTTP`, translated check for check.  `mac key msg` is
the HMAC-SHA1 digest (`hmac.New(sha1.New, key)` fed `msg`); `parse` is
`json.Unmarshal` into `GithubPayload`; `repos` is `h.Repos`. -/
def ServeHTTP (mac : List Char → List Char → List Nat)
    (parse : List Char → Option GithubPayload)
    (repos : List Repo) (r : HttpRequest) : ServeResult :=
  if r.path ≠ s2l "/hook" then .response 404 none
  else if r.method ≠ s2l "POST" then .response 405 none
  else if r.contentType ≠ s2l "application/json" then .response 400 none
  else if r.hubSignature.length < 45 then .response 400 none
  else
    match parse r.body with
    | none => .response 400 none
    | some payload =>
      match lookupRepo repos payload.repoFullName with
      | none => .response 400 none
      | some repo =>
        match sigCheck (mac repo.secret r.body) (r.hubSignature.drop 5) with
        | none => .panicked
        | some ok =>
          if !ok then .response 403 none
          else if r.githubEvent = s2l "watch" then .response 202 none
          else if r.githubEvent = s2l "push" then
            if !hasSuffix payload.ref repo.branch then .response 202 none
            else .response 202 (some ⟨repo.name,
              s2l "https://github.com/" ++ repo.name, repo.branch⟩)
          else .response 202 none

/-- A MAC function used to instantiate witnesses: every digest is the
20-zero-byte string (a value HMAC-SHA1 can in principle produce). -/
def macZero : List Char → List Char → List Nat := fun _ _ => List.replicate 20 0

/-- A parse function used in witnesses: any body parses to a fixed push
payload for repository o/r on master. -/
def parseOR : List Char → Option GithubPayload := fun _ =>
  some ⟨s2l "refs/heads/master", s2l "r", s2l "o/r"⟩

/-- A one-entry registry used in witnesses. -/
def reposOR : List Repo := [⟨s2l "o/r", s2l "sec", s2l "master"⟩]

/-- A well-formed push request whose signature digest is forty zero
characters, matching `macZero`. -/
def reqOR : HttpRequest :=
  ⟨s2l "/hook", s2l "POST", s2l "application/json",
   s2l "sha1=" ++ List.replicate 40 '0', s2l "push", s2l "body"⟩

/-- Claim C1: whenever the handler produces a BuildJob, the request parsed,
its repository was matched in the registry, and the HMAC check — keyed with
that repository's secret over the raw body — ran and succeeded.  Requests on
which verification fails, panics, or is never reached yield no job. -/
theorem c1_job_only_after_verification
    (mac : List Char → List Char → List Nat)
    (parse : List Char → Option GithubPayload)
    (repos : List Repo) (r : HttpRequest) (j : BuildJob)
    (h : jobOf (ServeHTTP mac parse repos r) = some j) :
    ∃ payload repo, parse r.body = some payload ∧
      lookupRepo repos payload.repoFullName = some repo ∧
      sigCheck (mac repo.secret r.body) (r.hubSignature.drop 5) = some true := by
  unfold ServeHTTP at h
  split at h
  · simp [jobOf] at h
  split at h
  · simp [jobOf] at h
  split at h
  · simp [jobOf] at h
  split at h
  · simp [jobOf] at h
  split at h
  · simp [jobOf] at h
  case _ payload hparse =>
  split at h
  · simp [jobOf] at h
  case _ repo hrepo =>
  split at h
  · simp [jobOf] at h
  case _ ok hsig =>
  refine ⟨payload, repo, hparse, hrepo, ?_⟩
  split at h
  · simp [jobOf] at h
  case _ hok =>
  cases ok with
  | false => simp at hok
  | true => exact hsig

/-- Witness for C1: a concrete accepted push request that enqueues a job,
and the verification facts C1 derives from it. -/
theorem c1_witness :
    jobOf (ServeHTTP macZero parseOR reposOR reqOR) =
      some ⟨s2l "o/r", s2l "https://github.com/o/r", s2l "master"⟩ ∧
    (∃ payload repo, parseOR reqOR.body = some payload ∧
      lookupRepo reposOR payload.repoFullName = some repo ∧
      sigCheck (macZero repo.secret reqOR.body) (reqOR.hubSignature.drop 5) =
        some true) :=
  ⟨by decide, c1_job_only_after_verification macZero parseOR reposOR reqOR
    ⟨s2l "o/r", s2l "https://github.com/o/r", s2l "master"⟩ (by decide)⟩

/-- Claim C2, evaluated at the failing input: the code discards the
`hex.Decode` error, so on an undecodable digest (forty characters z, i.e. a
45-character header) the comparison is still performed against the
partially-written zero buffer — it even returns true when the computed MAC
is the all-zero digest, where the claim demands an immediate false with no
comparison; and a longer header whose tail holds 42 valid hex digits drives
the decoder past the 20-byte buffer into a panic rather than a false. -/
theorem c2_decode_error_still_compared :
    sigCheck (List.replicate 20 0) (List.replicate 40 'z') = some true ∧
    sigCheck (List.replicate 20 0) (List.replicate 42 '0') = none := by
  decide

/-- Claim C5: on an authenticated push request, the ref/branch suffix test
alone decides the outcome — a matching ref enqueues exactly the job
{configured name, clone URL derived from it, configured branch}, a
non-matching ref enqueues nothing, and the status is 202 either way. -/
theorem c5_push_dispatch
    (mac : List Char → List Char → List Nat)
    (parse : List Char → Option GithubPayload)
    (repos : List Repo) (r : HttpRequest)
    (payload : GithubPayload) (repo : Repo)
    (hpath : r.path = s2l "/hook")
    (hmethod : r.method = s2l "POST")
    (hct : r.contentType = s2l "application/json")
    (hlen : 45 ≤ r.hubSignature.length)
    (hparse : parse r.body = some payload)
    (hrepo : lookupRepo repos payload.repoFullName = some repo)
    (hsig : sigCheck (mac repo.secret r.body) (r.hubSignature.drop 5) = some true)
    (hev : r.githubEvent = s2l "push") :
    ServeHTTP mac parse repos r =
      .response 202
        (if hasSuffix payload.ref repo.branch then
          some ⟨repo.name, s2l "https://github.com/" ++ repo.name, repo.branch⟩
        else none) := by
  unfold ServeHTTP
  rw [if_neg (by simp [hpath]), if_neg (by simp [hmethod]), if_neg (by simp [hct]),
    if_neg (by omega)]
  simp only [hparse, hrepo, hsig, hev]
  have hw : s2l "push" ≠ s2l "watch" := by decide
  rw [if_neg hw, if_pos trivial]
  cases hsuf : hasSuffix payload.ref repo.branch <;> simp [hsuf]

/-- Witness for C5: the concrete accepted push request enqueues the job for
o/r on master (its ref does end with the configured branch). -/
theorem c5_witness :
    reqOR.path = s2l "/hook" ∧
    ServeHTTP macZero parseOR reposOR reqOR =
      .response 202 (some ⟨s2l "o/r", s2l "https://github.com/o/r", s2l "master"⟩) := by
  refine ⟨by decide, ?_⟩
  have h := c5_push_dispatch macZero parseOR reposOR reqOR
    ⟨s2l "refs/heads/master", s2l "r", s2l "o/r"⟩ ⟨s2l "o/r", s2l "sec", s2l "master"⟩
    (by decide) (by decide) (by decide) (by decide) (by decide) (by decide)
    (by decide) (by decide)
  rw [h]
  decide

/-- Claim C6: a well-formed request naming an unregistered repository is
answered 400 with no job; the equation holds for every MAC function and
every signature value of plausible length, so signature verification is
never consulted (and its validity is irrelevant). -/
theorem c6_unknown_repo_rejected_before_verification
    (mac : List Char → List Char → List Nat)
    (parse : List Char → Option GithubPayload)
    (repos : List Repo) (r : HttpRequest) (payload : GithubPayload)
    (hpath : r.path = s2l "/hook")
    (hmethod : r.method = s2l "POST")
    (hct : r.contentType = s2l "application/json")
    (hlen : 45 ≤ r.hubSignature.length)
    (hparse : parse r.body = some payload)
    (hrepo : lookupRepo repos payload.repoFullName = none) :
    ServeHTTP mac parse repos r = .response 400 none := by
  unfold ServeHTTP
  rw [if_neg (by simp [hpath]), if_neg (by simp [hmethod]), if_neg (by simp [hct]),
    if_neg (by omega)]
  simp only [hparse, hrepo]

/-- Witness for C6: repository x/y is not registered, so the request is
answered 400 even though its signature digest would verify under `macZero`. -/
theorem c6_witness :
    lookupRepo reposOR (s2l "x/y") = none ∧
    ServeHTTP macZero (fun _ => some ⟨s2l "refs/heads/master", s2l "y", s2l "x/y"⟩)
      reposOR reqOR = .response 400 none :=
  ⟨by decide,
    c6_unknown_repo_rejected_before_verification macZero
      (fun _ => some ⟨s2l "refs/heads/master", s2l "y", s2l "x/y"⟩) reposOR reqOR
      ⟨s2l "refs/heads/master", s2l "y", s2l "x/y"⟩
      (by decide) (by decide) (by decide) (by decide) (by decide) (by decide)⟩

/-- Configuration of an `exec.Cmd` as built by `jobRunner`: argv, the
`SysProcAttr` credential, the explicit `Env` (Go semantics: `none` — a nil
`Cmd.Env` — makes the child inherit the parent process's environment), and
the working directory. -/
structure Cmd where
  argv : List (List Char)
  cred : Option (Nat × Nat)
  env : Option (List (List Char))
  dir : Option (List Char)
  deriving DecidableEq

/-- `tmpDir` in `jobRunner`: "/tmp/spectacle-" with slashes of the job name
replaced by dashes. -/
def tmpDirStr (job : BuildJob) : List Char :=
  s2l "/tmp/spectacle-" ++ sanitizeName job.name

/-- `buildPath` in `jobRunner`. -/
def buildPathStr (job : BuildJob) : List Char :=
  tmpDirStr job ++ s2l "/src/github.com/" ++ job.name

/-- The `git clone` subprocess exactly as `jobRunner` constructs it: a
credential of uid/gid 1001 is set, but `Cmd.Env` is never assigned, so it
stays nil and the child inherits the service's environment. -/
def gitCmdOf (job : BuildJob) : Cmd :=
  { argv := [s2l "git", s2l "clone", job.url, buildPathStr job]
  , cred := some (1001, 1001)
  , env := none
  , dir := none }

/-- The `sh spectacle.sh` subprocess as `jobRunner` constructs it:
credential 1001/1001, explicit three-variable environment, working
directory the build path. -/
def buildCmdOf (job : BuildJob) : Cmd :=
  { argv := [s2l "sh", s2l "spectacle.sh"]
  , cred := some (1001, 1001)
  , env := some [s2l "HOME=/home/spectacle", s2l "GOPATH=" ++ tmpDirStr job,
      s2l "PATH=/usr/local/sbin:/usr/local/bin:/usr/bin"]
  , dir := some (buildPathStr job) }

/-- A concrete job used in counterexamples. -/
def jobOR : BuildJob := ⟨s2l "o/r", s2l "https://github.com/o/r", s2l "master"⟩

/-- Claim C3 counterexample: it is not the case that both subprocesses get
an explicitly constructed environment — the fetch subprocess's `Cmd.Env` is
nil, so it inherits the service process's full environment, contradicting
the claim for the concrete job o/r. -/
theorem c3_counterexample :
    ¬ ((gitCmdOf jobOR).env.isSome = true ∧ (buildCmdOf jobOR).env.isSome = true) := by
  decide

/-- Claim C3 amended: both subprocesses run under uid/gid 1001; the
build-script subprocess gets the explicit minimal environment (home
directory, workspace-scoped GOPATH, restricted PATH) and runs in the build
directory; the fetch subprocess, however, has no explicit environment and so
inherits the service's environment. -/
theorem c3_amended (job : BuildJob) :
    (gitCmdOf job).cred = some (1001, 1001) ∧
    (buildCmdOf job).cred = some (1001, 1001) ∧
    (buildCmdOf job).env = some [s2l "HOME=/home/spectacle",
      s2l "GOPATH=" ++ tmpDirStr job,
      s2l "PATH=/usr/local/sbin:/usr/local/bin:/usr/bin"] ∧
    (buildCmdOf job).dir = some (buildPathStr job) ∧
    (gitCmdOf job).env = none :=
  ⟨rfl, rfl, rfl, rfl, rfl⟩

/-- The steps of one `jobRunner` iteration, in source order. -/
inductive StepTag where
  | statStep
  | removeStep
  | mkdirStep
  | chownStep
  | gitStep
  | scriptStatStep
  | buildStep
  deriving DecidableEq

/-- How a job ends when it fails, matching the four logged error paths. -/
inductive FailReason where
  | removeFailed
  | gitFailed
  | missingScript
  | buildFailed
  deriving DecidableEq

/-- Outcome of the error-returning closure in `jobRunner`. -/
inductive JobOutcome where
  | ok
  | failed (r : FailReason)
  deriving DecidableEq

/-- The results the operating system hands back to one `jobRunner`
iteration: whether `os.Stat(tmpDir)` found the directory, and the
error results of RemoveAll, MkdirAll, the chown walk, the git run, whether
spectacle.sh exists, and the build run.  The code reads only some of these:
MkdirAll's and the walk's results exist but are discarded by the source. -/
structure JobEnv where
  statFound : Bool
  removeResult : Option Unit
  mkdirResult : Option Unit
  chownResult : Option Unit
  gitResult : Option Unit
  scriptFound : Bool
  buildResult : Option Unit
  deriving DecidableEq

/-- The tail of a `jobRunner` iteration after the conditional RemoveAll:
MkdirAll and the chown walk run with their error results ignored, then git,
the spectacle.sh stat, and the build, each checked. -/
def afterPrep (env : JobEnv) (tr : List StepTag) : JobOutcome × List StepTag :=
  let tr1 := tr ++ [StepTag.mkdirStep, StepTag.chownStep]
  match env.gitResult with
  | some _ => (.failed .gitFailed, tr1 ++ [StepTag.gitStep])
  | none =>
    if !env.scriptFound then
      (.failed .missingScript, tr1 ++ [StepTag.gitStep, StepTag.scriptStatStep])
    else
      match env.buildResult with
      | some _ =>
        (.failed .buildFailed,
          tr1 ++ [StepTag.gitStep, StepTag.scriptStatStep, StepTag.buildStep])
      | none =>
        (.ok, tr1 ++ [StepTag.gitStep, StepTag.scriptStatStep, StepTag.buildStep])

/-- One iteration of the `jobRunner` loop: the outcome of the closure plus
the list of steps that were attempted.  Only a RemoveAll failure aborts the
preparation; it is the sole filesystem error the source checks. -/
def jobRunnerStep (env : JobEnv) : JobOutcome × List StepTag :=
  if env.statFound then
    match env.removeResult with
    | some _ => (.failed .removeFailed, [StepTag.statStep, StepTag.removeStep])
    | none => afterPrep env [StepTag.statStep, StepTag.removeStep]
  else afterPrep env [StepTag.statStep]

/-- The status string `jobRunner` logs after each job. -/
def statusOf : JobOutcome → List Char
  | .ok => s2l "OK"
  | .failed _ => s2l "FAIL"

/-- The worker loop consuming a queue of jobs (each represented by the
operating-system results it will encounter), logging one status per job. -/
def workerRun : List JobEnv → List (List Char)
  | [] => []
  | e :: rest => statusOf (jobRunnerStep e).fst :: workerRun rest

/-- Claim C8: the worker logs an outcome for every job and keeps serving the
rest of the queue no matter how jobs end; a missing spectacle.sh after a
successful fetch is the Failed outcome, not a crash; and after any number of
arbitrary earlier outcomes the next job is still processed and logged. -/
theorem c8_worker_survives_failures :
    (∀ envs : List JobEnv, (workerRun envs).length = envs.length) ∧
    (∀ (sf : Bool) (m c b : Option Unit),
      (jobRunnerStep ⟨sf, none, m, c, none, false, b⟩).fst = .failed .missingScript) ∧
    (∀ (envs : List JobEnv) (e : JobEnv),
      workerRun (envs ++ [e]) = workerRun envs ++ [statusOf (jobRunnerStep e).fst]) := by
  refine ⟨?_, ?_, ?_⟩
  · intro envs
    induction envs with
    | nil => rfl
    | cons e rest ih => simp [workerRun, ih]
  · intro sf m c b
    cases sf <;> rfl
  · intro envs e
    induction envs with
    | nil => rfl
    | cons f rest ih => simp [workerRun, ih]

/-- A run in which MkdirAll fails while everything else succeeds. -/
def envMkdirFail : JobEnv := ⟨false, none, some (), none, none, true, none⟩

/-- Claim C9 counterexample: with directory creation failing, the claim
would have the job fail with no later step attempted; in fact the source
discards MkdirAll's error, the fetch and the build both run, and the job
even completes with the OK outcome. -/
theorem c9_counterexample :
    ¬ (envMkdirFail.mkdirResult.isSome = true →
        (jobRunnerStep envMkdirFail).fst ≠ .ok ∧
        StepTag.gitStep ∉ (jobRunnerStep envMkdirFail).snd) := by
  decide

/-- Claim C9 amended: among the filesystem steps of workspace preparation
only a RemoveAll failure is fatal — the job stops at once with the
remove-failed outcome (logged as such) and neither fetch nor execution is
attempted; MkdirAll and chown-walk errors are discarded and the job
proceeds through fetch and execution regardless. -/
theorem c9_amended (m c g : Option Unit) (sf : Bool) (b m' c' : Option Unit) :
    jobRunnerStep ⟨true, some (), m, c, g, sf, b⟩ =
      (.failed .removeFailed, [StepTag.statStep, StepTag.removeStep]) ∧
    (jobRunnerStep ⟨false, none, m', c', none, true, none⟩).fst = .ok :=
  ⟨rfl, rfl⟩

/-- Path q lies in the directory tree rooted at t: it is t itself or
extends it past a slash. -/
def isUnder (t q : List Char) : Bool :=
  q == t || (t ++ ['/']).isPrefixOf q

/-- `os.RemoveAll t` on a filesystem modelled as the list of its existing
paths: the whole tree rooted at t disappears. -/
def removeTree (fs : List (List Char)) (t : List Char) : List (List Char) :=
  fs.filter (fun q => !(isUnder t q))

/-- The directories `os.MkdirAll p` provides: every ancestor of p (the
cuts just before an inner slash) and p itself. -/
def chainOf (p : List Char) : List (List Char) :=
  ((List.range p.length).filterMap (fun k =>
    if 0 < k && ((p.drop k).head? == some '/') then some (p.take k) else none)) ++ [p]

/-- `os.MkdirAll` applied to the filesystem. -/
def mkdirAll (fs : List (List Char)) (p : List Char) : List (List Char) :=
  fs ++ chainOf p

/-- Workspace preparation in `jobRunner`: stat the workspace root, RemoveAll
it when present, MkdirAll the build path. -/
def fsPrepare (fs : List (List Char)) (job : BuildJob) : List (List Char) :=
  let t := tmpDirStr job
  let fs1 := if t ∈ fs then removeTree fs t else fs
  mkdirAll fs1 (buildPathStr job)

/-- The paths of fs that lie in the tree rooted at t. -/
def subtreeOf (fs : List (List Char)) (t : List Char) : List (List Char) :=
  fs.filter (fun q => isUnder t q)

/-- Real filesystems are prefix-closed: the text before any inner slash of
an existing path names an existing directory. -/
def wellFormedFS (fs : List (List Char)) : Prop :=
  ∀ q ∈ fs, ∀ k, k < q.length → (q.drop k).head? = some '/' → 0 < k → q.take k ∈ fs

instance (fs : List (List Char)) : Decidable (wellFormedFS fs) := by
  unfold wellFormedFS
  infer_instance

theorem subtree_nil_of_not_mem (fs : List (List Char)) (t : List Char)
    (hwf : wellFormedFS fs) (ht : t ≠ []) (hmem : t ∉ fs) :
    subtreeOf fs t = [] := by
  rw [subtreeOf, List.filter_eq_nil_iff]
  intro q hq hu
  rw [isUnder, Bool.or_eq_true] at hu
  rcases hu with hu | hu
  · rw [beq_iff_eq] at hu
    exact hmem (hu ▸ hq)
  · rw [List.isPrefixOf_iff_prefix] at hu
    obtain ⟨r, hr⟩ := hu
    rw [List.append_assoc, List.singleton_append] at hr
    have hk : q.drop t.length = '/' :: r := by rw [← hr, List.drop_left]
    have hkl : t.length < q.length := by
      have := congrArg List.length hr
      simp at this
      omega
    have h0 : 0 < t.length := List.length_pos.mpr ht
    have hmem' := hwf q hq t.length hkl (by rw [hk]; rfl) h0
    rw [← hr, List.take_left] at hmem'
    exact hmem hmem'

theorem subtree_nil_of_removed (fs : List (List Char)) (t : List Char) :
    subtreeOf (removeTree fs t) t = [] := by
  rw [subtreeOf, List.filter_eq_nil_iff]
  intro q hq
  rw [removeTree, List.mem_filter] at hq
  simp only [Bool.not_eq_true'] at hq
  simp [hq.2]

theorem tmpDir_ne_nil (job : BuildJob) : tmpDirStr job ≠ [] := by
  rw [tmpDirStr]
  intro h
  exact absurd (List.append_eq_nil.mp h).1 (by decide)

theorem subtree_after_fsPrepare (fs : List (List Char)) (job : BuildJob)
    (hwf : wellFormedFS fs) :
    subtreeOf (fsPrepare fs job) (tmpDirStr job) =
      subtreeOf (chainOf (buildPathStr job)) (tmpDirStr job) := by
  rw [fsPrepare, mkdirAll, subtreeOf, List.filter_append]
  by_cases hmem : tmpDirStr job ∈ fs
  · rw [if_pos hmem]
    have := subtree_nil_of_removed fs (tmpDirStr job)
    rw [subtreeOf] at this
    rw [this, List.nil_append]
    rfl
  · rw [if_neg hmem]
    have := subtree_nil_of_not_mem fs (tmpDirStr job) hwf (tmpDir_ne_nil job) hmem
    rw [subtreeOf] at this
    rw [this, List.nil_append]
    rfl

/-- Claim C7: preparation leaves under the derived workspace root exactly
the freshly created directory chain — every surviving path under the root
belongs to the fresh chain, and the workspace contents after preparation are
identical for any two prior filesystem states, so a second job's preparation
behaves the same no matter what the first job left behind. -/
theorem c7_fresh_workspace (job : BuildJob) (fs₁ fs₂ : List (List Char))
    (h1 : wellFormedFS fs₁) (h2 : wellFormedFS fs₂) :
    (∀ q ∈ subtreeOf (fsPrepare fs₁ job) (tmpDirStr job),
      q ∈ chainOf (buildPathStr job)) ∧
    subtreeOf (fsPrepare fs₁ job) (tmpDirStr job) =
      subtreeOf (fsPrepare fs₂ job) (tmpDirStr job) := by
  constructor
  · intro q hq
    rw [subtree_after_fsPrepare fs₁ job h1, subtreeOf, List.mem_filter] at hq
    exact hq.1
  · rw [subtree_after_fsPrepare fs₁ job h1, subtree_after_fsPrepare fs₂ job h2]

/-- Witness for C7: an empty filesystem and one holding a stale workspace
with leftovers produce identical workspace contents for the o/r job. -/
theorem c7_witness :
    wellFormedFS [s2l "/tmp", s2l "/tmp/spectacle-o-r", s2l "/tmp/spectacle-o-r/stale"] ∧
    subtreeOf (fsPrepare [] jobOR) (tmpDirStr jobOR) =
      subtreeOf (fsPrepare [s2l "/tmp", s2l "/tmp/spectacle-o-r",
        s2l "/tmp/spectacle-o-r/stale"] jobOR) (tmpDirStr jobOR) :=
  ⟨by decide,
    (c7_fresh_workspace jobOR []
      [s2l "/tmp", s2l "/tmp/spectacle-o-r", s2l "/tmp/spectacle-o-r/stale"]
      (by decide) (by decide)).2⟩

/-- The worker goroutine is either blocked on the channel receive or running
one build. -/
inductive WorkerState where
  | awaiting
  | running (j : BuildJob)

/-- Global state of the queue mechanism: the `queueWork` sender goroutines
currently blocked on the unbuffered channel, and the single worker spawned
by main. -/
structure SysState where
  pending : List BuildJob
  worker : WorkerState

/-- Observable events: a webhook request spawns a sender goroutine; the
worker begins a build (channel rendezvous with one sender); the worker
finishes its build. -/
inductive SysEvent where
  | request (j : BuildJob)
  | begins (j : BuildJob)
  | finishes (j : BuildJob)

/-- Interleaving semantics of `queueWork`/`jobRunner`: requests may arrive
at any time; a rendezvous picks any blocked sender but requires the worker
to be at its receive; completion returns the worker to the receive. -/
inductive SysStep : SysState → SysEvent → SysState → Prop where
  | request (p : List BuildJob) (w : WorkerState) (j : BuildJob) :
      SysStep ⟨p, w⟩ (.request j) ⟨p ++ [j], w⟩
  | handoff (p₁ p₂ : List BuildJob) (j : BuildJob) :
      SysStep ⟨p₁ ++ j :: p₂, .awaiting⟩ (.begins j) ⟨p₁ ++ p₂, .running j⟩
  | complete (p : List BuildJob) (j : BuildJob) :
      SysStep ⟨p, .running j⟩ (.finishes j) ⟨p, .awaiting⟩

/-- Process start: no pending senders, worker at its receive. -/
def initState : SysState := ⟨[], .awaiting⟩

/-- A finite execution from s through the event list to a final state. -/
inductive SysTrace : SysState → List SysEvent → SysState → Prop where
  | nil (s : SysState) : SysTrace s [] s
  | snoc {s s' s'' : SysState} {tr : List SysEvent} {e : SysEvent} :
      SysTrace s tr s' → SysStep s' e s'' → SysTrace s (tr ++ [e]) s''

/-- Number of builds the worker is running (0 or 1 by construction of the
single worker). -/
def loadOf : WorkerState → Nat
  | .awaiting => 0
  | .running _ => 1

def isBeginEv : SysEvent → Bool
  | .begins _ => true
  | _ => false

def isFinishEv : SysEvent → Bool
  | .finishes _ => true
  | _ => false

theorem trace_count (tr : List SysEvent) (s : SysState)
    (h : SysTrace initState tr s) :
    tr.countP isBeginEv = tr.countP isFinishEv + loadOf s.worker := by
  induction h with
  | nil => rfl
  | snoc h step ih =>
    cases step with
    | request p w j =>
      simp only [List.countP_append, List.countP_cons, List.countP_nil] at ih ⊢
      simp [isBeginEv, isFinishEv] at ih ⊢
      omega
    | handoff p₁ p₂ j =>
      simp only [List.countP_append, List.countP_cons, List.countP_nil] at ih ⊢
      simp [isBeginEv, isFinishEv, loadOf] at ih ⊢
      omega
    | complete p j =>
      simp only [List.countP_append, List.countP_cons, List.countP_nil] at ih ⊢
      simp [isBeginEv, isFinishEv, loadOf] at ih ⊢
      omega

theorem trace_split (s₀ s : SysState) (tr : List SysEvent)
    (h : SysTrace s₀ tr s) :
    ∀ p q : List SysEvent, tr = p ++ q → ∃ s', SysTrace s₀ p s' := by
  induction h with
  | nil =>
    intro p q hpq
    obtain ⟨hp, _⟩ := List.append_eq_nil.mp hpq.symm
    subst hp
    exact ⟨_, SysTrace.nil _⟩
  | snoc h step ih =>
    intro p q hpq
    rcases List.eq_nil_or_concat q with hq | ⟨q₀, e', hq⟩
    · subst hq
      rw [List.append_nil] at hpq
      exact ⟨_, hpq ▸ SysTrace.snoc h step⟩
    · subst hq
      rw [List.concat_eq_append, ← List.append_assoc] at hpq
      obtain ⟨h1, _⟩ := List.append_inj' hpq rfl
      exact ih p q₀ h1

/-- Claim C4: however many webhook requests arrive and interleave, along any
execution of the queue-and-worker system every prefix shows at most one more
begun build than finished builds — builds are strictly serialized, so no two
jobs' executions ever overlap. -/
theorem c4_builds_serialized (tr : List SysEvent) (s : SysState)
    (h : SysTrace initState tr s) (p q : List SysEvent) (hpq : tr = p ++ q) :
    p.countP isBeginEv ≤ p.countP isFinishEv + 1 := by
  obtain ⟨s', hp⟩ := trace_split initState s tr h p q hpq
  have hc := trace_count p s' hp
  have hl : loadOf s'.worker ≤ 1 := by cases hw : s'.worker <;> simp [loadOf]
  omega

/-- Witness for C4: a concrete three-event execution — request, begin,
finish — satisfies the serialization bound. -/
theorem c4_witness :
    List.countP isBeginEv
        [SysEvent.request jobOR, SysEvent.begins jobOR, SysEvent.finishes jobOR] ≤
      List.countP isFinishEv
        [SysEvent.request jobOR, SysEvent.begins jobOR, SysEvent.finishes jobOR] + 1 := by
  have ht : SysTrace initState
      [SysEvent.request jobOR, SysEvent.begins jobOR, SysEvent.finishes jobOR]
      ⟨[], WorkerState.awaiting⟩ :=
    SysTrace.snoc
      (SysTrace.snoc
        (SysTrace.snoc (SysTrace.nil initState)
          (SysStep.request [] WorkerState.awaiting jobOR))
        (SysStep.handoff [] [] jobOR))
      (SysStep.complete [] jobOR)
  exact c4_builds_serialized _ _ ht _ [] (List.append_nil _).symm

/-- Claim C10: the handler's outcome does not depend on the first five
characters of the X-Hub-Signature header — two requests that agree
everywhere else, with same-length headers of at least 45 characters sharing
everything past position five, get identical results: the sha1= prefix is
never validated. -/
theorem c10_sig_head_never_checked
    (mac : List Char → List Char → List Nat)
    (parse : List Char → Option GithubPayload)
    (repos : List Repo)
    (path method ct ev body sig₁ sig₂ : List Char)
    (hlen : sig₁.length = sig₂.length)
    (htail : sig₁.drop 5 = sig₂.drop 5)
    (h45 : 45 ≤ sig₁.length) :
    ServeHTTP mac parse repos ⟨path, method, ct, sig₁, ev, body⟩ =
      ServeHTTP mac parse repos ⟨path, method, ct, sig₂, ev, body⟩ := by
  unfold ServeHTTP
  simp only [hlen, htail]

/-- Witness for C10: replacing the sha1= prefix with five X characters
leaves the concrete request's outcome unchanged. -/
theorem c10_witness :
    (s2l "sha1=" ++ List.replicate 40 '0').length =
      (s2l "XXXXX" ++ List.replicate 40 '0').length ∧
    ServeHTTP macZero parseOR reposOR
      ⟨s2l "/hook", s2l "POST", s2l "application/json",
        s2l "sha1=" ++ List.replicate 40 '0', s2l "push", s2l "body"⟩ =
    ServeHTTP macZero parseOR reposOR
      ⟨s2l "/hook", s2l "POST", s2l "application/json",
        s2l "XXXXX" ++ List.replicate 40 '0', s2l "push", s2l "body"⟩ :=
  ⟨by decide,
    c10_sig_head_never_checked macZero parseOR reposOR
      (s2l "/hook") (s2l "POST") (s2l "application/json") (s2l "push") (s2l "body")
      (s2l "sha1=" ++ List.replicate 40 '0') (s2l "XXXXX" ++ List.replicate 40 '0')
      (by decide) (by decide) (by decide)⟩
